import Mathlib

/-!
Shallow embedding of the notification dispatch core of oslo.messaging:
the notification dispatcher (`oslo_messaging/notify/dispatcher.py`) and the
pooled executor bookkeeping (`oslo_messaging/_executors/impl_pooledexecutor.py`).

Pure data flow is modelled directly; side effects (log warnings, handler
invocations, acknowledge/requeue calls) are modelled as explicit event lists
returned alongside the results, and handler exceptions as `Except` results.
-/

namespace OsloMessaging

/-- Fixed priority list, dispatcher.py line 30. -/
def PRIORITIES : List String := ["audit", "debug", "info", "warn", "error", "critical", "sample"]

namespace NotificationResult

/-- Verdict string for a handled message, dispatcher.py line 34. -/
def HANDLED : String := "handled"

/-- Verdict string requesting a requeue, dispatcher.py line 35. -/
def REQUEUE : String := "requeue"

end NotificationResult

/-- The mapping carried by an incoming message (the fields the dispatcher reads). -/
structure Message where
  publisher_id : Option String := none
  event_type : Option String := none
  message_id : Option String := none
  timestamp : Option String := none
  priority : Option String := none
  payload : Option String := none
deriving DecidableEq

/-- An envelope from the transport. `mid` is the object identity used for
set membership of raw messages. -/
structure IncomingMessage where
  mid : Nat
  ctxt : String := ""
  message : Message := {}
deriving DecidableEq

/-- The metadata sub-dictionary built by `_extract_user_message`. -/
structure Metadata where
  message_id : Option String
  timestamp : Option String
deriving DecidableEq

/-- The decoded record built by `_extract_user_message` (dispatcher.py 154-158). -/
structure UserMessage where
  ctxt : String
  publisher_id : Option String
  event_type : Option String
  payload : Option String
  metadata : Metadata
deriving DecidableEq

/-- The serializer interface the dispatcher consumes. -/
structure Serializer where
  deserialize_context : String → String
  deserialize_entity : String → Option String → Option String

/-- The no-op serializer used when none is supplied (dispatcher.py line 43). -/
def NoOpSerializer : Serializer := ⟨fun c => c, fun _ p => p⟩

/-- A filter rule: the `match` predicate over
(ctxt, publisher_id, event_type, metadata, payload). -/
def FilterRule : Type := String → Option String → Option String → Metadata → Option String → Bool

/-- An endpoint handler method. The name identifies the handler in the event
trace; `run` may raise (modelled as `Except.error`) or return an optional
verdict string. -/
structure Handler where
  name : String
  run : List UserMessage → Except String (Option String)

/-- A user endpoint: an optional handler per priority name and an optional
filter rule (`getattr` on the priority name, and the `filter_rule` attribute
defaulting to Python `None`). -/
structure Endpoint where
  handler : String → Option Handler
  filter_rule : Option FilterRule := none

/-- Model of Python `str.lower()`, acting charwise on the string. -/
def pyLower (s : String) : String := String.mk (s.data.map Char.toLower)

/-- Embedding of `_extract_user_message` (dispatcher.py lines 141-158):
yields `(priority, raw incoming, decoded record)`. -/
def extract_user_message (s : Serializer) (incoming : IncomingMessage) :
    String × IncomingMessage × UserMessage :=
  let ctxt := s.deserialize_context incoming.ctxt
  let message := incoming.message
  let metadata : Metadata := ⟨message.message_id, message.timestamp⟩
  let priority := pyLower (message.priority.getD (""))
  let payload := s.deserialize_entity ctxt message.payload
  (priority, incoming, ⟨ctxt, message.publisher_id, message.event_type, payload, metadata⟩)

/-- Embedding of `itertools.groupby`: groups consecutive elements sharing the
same key, preserving order. -/
def pygroupby {α κ : Type} [DecidableEq κ] (key : α → κ) : List α → List (κ × List α)
  | [] => []
  | x :: xs =>
    match pygroupby key xs with
    | [] => [(key x, [x])]
    | (k, g) :: rest =>
      if key x = k then (k, x :: g) :: rest else (key x, [x]) :: (k, g) :: rest

/-- Embedding of `_exec_callback` (dispatcher.py lines 134-139) with no
executor callback installed: a `none` return is coerced to `HANDLED`. -/
def exec_callback (callback : Handler) (args : List UserMessage) : Except String String :=
  match callback.run args with
  | Except.error e => Except.error e
  | Except.ok none => Except.ok NotificationResult.HANDLED
  | Except.ok (some ret) => Except.ok ret

/-- Filter application of dispatcher.py lines 113-122: a present screen keeps
the messages it matches, an absent screen keeps everything. -/
def applyScreen (screen : Option FilterRule) (messages : List UserMessage) : List UserMessage :=
  match screen with
  | some s => messages.filter (fun message =>
      s message.ctxt message.publisher_id message.event_type message.metadata message.payload)
  | none => messages

/-- Observable side effects of a dispatch: a logged unknown-priority warning,
or a handler invocation with its argument list and verdict. -/
inductive Event where
  | warned (priority : String)
  | invoked (handler : String) (args : List UserMessage) (ret : String)
deriving DecidableEq

/-- Python `dict.get(k, dflt)` over an insertion-ordered association list. -/
def lookupD {α : Type} (d : List (String × α)) (k : String) (dflt : α) : α :=
  match d with
  | [] => dflt
  | (k', v) :: rest => if k' = k then v else lookupD rest k dflt

/-- The inner handler loop of `_dispatch` (dispatcher.py lines 111-131) for one
priority group: screens, skips empty screens, invokes, and on an allowed
REQUEUE verdict adds every raw message of the group and breaks. Returns the
invocation events and either the updated requeue set or the raised error. -/
def processHandlers (allow_requeue : Bool) (raw_messages : List IncomingMessage)
    (messages : List UserMessage) (requeues : List IncomingMessage) :
    List (Option FilterRule × Handler) → List Event × Except String (List IncomingMessage)
  | [] => ([], Except.ok requeues)
  | (screen, callback) :: rest =>
    let filtered_messages := applyScreen screen messages
    if filtered_messages.isEmpty then
      processHandlers allow_requeue raw_messages messages requeues rest
    else
      match exec_callback callback filtered_messages with
      | Except.error e => ([], Except.error e)
      | Except.ok ret =>
        if allow_requeue ∧ ret = NotificationResult.REQUEUE then
          ([Event.invoked callback.name filtered_messages ret],
           Except.ok (requeues ++ raw_messages))
        else
          let r := processHandlers allow_requeue raw_messages messages requeues rest
          (Event.invoked callback.name filtered_messages ret :: r.1, r.2)

/-- The outer group loop of `_dispatch` (dispatcher.py lines 104-131): a group
with an unknown priority logs a warning and is skipped; a known priority runs
its registered handlers. -/
def processGroups (allow_requeue : Bool)
    (callbacks_by_priority : List (String × List (Option FilterRule × Handler)))
    (requeues : List IncomingMessage) :
    List (String × List IncomingMessage × List UserMessage) →
      List Event × Except String (List IncomingMessage)
  | [] => ([], Except.ok requeues)
  | (priority, raw_messages, messages) :: rest =>
    if priority ∉ PRIORITIES then
      let r := processGroups allow_requeue callbacks_by_priority requeues rest
      (Event.warned priority :: r.1, r.2)
    else
      match processHandlers allow_requeue raw_messages messages requeues
          (lookupD callbacks_by_priority priority []) with
      | (evs, Except.error e) => (evs, Except.error e)
      | (evs, Except.ok requeues2) =>
        let r := processGroups allow_requeue callbacks_by_priority requeues2 rest
        (evs ++ r.1, r.2)

/-- Python `dict.setdefault(k, []).append(v)` over an insertion-ordered
association list. -/
def setdefaultAppend {α : Type} (d : List (String × List α)) (k : String) (v : α) :
    List (String × List α) :=
  match d with
  | [] => [(k, [v])]
  | (k', vs) :: rest =>
    if k' = k then (k', vs ++ [v]) :: rest else (k', vs) :: setdefaultAppend rest k v

/-- One step of the registration loop of `__init__` (dispatcher.py lines 48-53)
for a fixed endpoint and one priority. -/
def addEndpointPrio (e : Endpoint) (d : List (String × List (Option FilterRule × Handler)))
    (prio : String) : List (String × List (Option FilterRule × Handler)) :=
  match e.handler prio with
  | some method => setdefaultAppend d prio (e.filter_rule, method)
  | none => d

/-- The `_callbacks_by_priority` index built by `__init__` over
`itertools.product(endpoints, PRIORITIES)` (endpoints outermost). -/
def buildCallbacks (endpoints : List Endpoint) :
    List (String × List (Option FilterRule × Handler)) :=
  endpoints.foldl (fun d e => PRIORITIES.foldl (addEndpointPrio e) d) []

/-- The dispatcher state fixed at construction. -/
structure Dispatcher where
  targets : List String
  endpoints : List Endpoint
  serializer : Serializer
  allow_requeue : Bool

/-- The priority index of a dispatcher. -/
def Dispatcher.callbacks_by_priority (d : Dispatcher) :
    List (String × List (Option FilterRule × Handler)) :=
  buildCallbacks d.endpoints

/-- Keys of an association list, in insertion order. -/
def keysOf {α : Type} (d : List (String × α)) : List String := d.map (fun kv => kv.1)

/-- The `_targets_priorities` subscription set of `__init__` (lines 55-57):
`set(itertools.product(targets, callbacks.keys()))`, modelled as the product
list (membership gives the set). -/
def Dispatcher.targets_priorities (d : Dispatcher) : List (String × String) :=
  d.targets.foldr
    (fun t acc => (keysOf d.callbacks_by_priority).map (fun p => (t, p)) ++ acc) []

/-- The priority grouping performed at dispatcher.py lines 99-101: extraction
followed by consecutive grouping on the priority component. -/
def dispatchGroups (d : Dispatcher) (incoming : List IncomingMessage) :
    List (String × List (String × IncomingMessage × UserMessage)) :=
  pygroupby (fun x => x.1) (incoming.map (extract_user_message d.serializer))

/-- Embedding of `_dispatch` (dispatcher.py lines 95-132) over the list of raw
messages of the cycle (`_get_messages`: `[incoming]` in single mode, the batch
list in batch mode). -/
def dispatch (d : Dispatcher) (incoming : List IncomingMessage) :
    List Event × Except String (List IncomingMessage) :=
  processGroups d.allow_requeue d.callbacks_by_priority []
    ((dispatchGroups d incoming).map
      (fun g => (g.1, g.2.map (fun x => x.2.1), g.2.map (fun x => x.2.2))))

/-- Acknowledge and requeue calls issued by `_post_dispatch`. -/
inductive AckEvent where
  | acked (m : IncomingMessage)
  | requeued (m : IncomingMessage)
deriving DecidableEq

/-- Embedding of `_dispatch_and_handle_error` (dispatcher.py lines 81-93): an
exception is logged and swallowed, leaving the Python `None` return, modelled
as `none`. -/
def dispatch_and_handle_error (d : Dispatcher) (incoming : List IncomingMessage) :
    List Event × Option (List IncomingMessage) :=
  match dispatch d incoming with
  | (evs, Except.ok requeues) => (evs, some requeues)
  | (evs, Except.error _) => (evs, none)

/-- Truthiness test `requeues and m in requeues` of dispatcher.py line 72,
where `requeues` may be Python `None` or a possibly empty set. -/
def truthyMem (requeues : Option (List IncomingMessage)) (m : IncomingMessage) : Bool :=
  match requeues with
  | none => false
  | some l => !l.isEmpty && l.contains m

/-- Embedding of `_post_dispatch` (dispatcher.py lines 69-79): each raw message
of the cycle is requeued when the requeue set is truthy and contains it, and
acknowledged otherwise. -/
def post_dispatch (msgs : List IncomingMessage) (requeues : Option (List IncomingMessage)) :
    List AckEvent :=
  msgs.map (fun m => if truthyMem requeues m then AckEvent.requeued m else AckEvent.acked m)

/-- One full dispatch cycle as driven by `DispatcherExecutorContext`: `run`
performs the guarded dispatch, `done` performs post-dispatch with its result. -/
def runCycle (d : Dispatcher) (incoming : List IncomingMessage) :
    List Event × List AckEvent :=
  let r := dispatch_and_handle_error d incoming
  (r.1, post_dispatch incoming r.2)

/-- The per-priority entry an endpoint contributes to the index: its pair
`(filter_rule, method)` when it has a handler of that name, nothing otherwise. -/
def optEntry (e : Endpoint) (p : String) : List (Option FilterRule × Handler) :=
  match e.handler p with
  | some method => [(e.filter_rule, method)]
  | none => []

/-- Expected value for the priority index entry of priority `p`: the entries of
the endpoints that handle `p`, in registration order. -/
def cbFor (endpoints : List Endpoint) (p : String) : List (Option FilterRule × Handler) :=
  endpoints.flatMap (fun e => optEntry e p)

/-- Projection selecting handler-invocation events from a trace. -/
def invokedName : Event → Option String
  | Event.invoked h _ _ => some h
  | Event.warned _ => none

/-! Pooled executor (impl_pooledexecutor.py). Futures are identified by
natural numbers; the deque of incomplete futures is a list. -/

/-- Removal of the first occurrence of a future, with the absent case a no-op:
`try: self.incomplete.remove(fut) except ValueError: pass` (lines 71-74, 147-150). -/
def py_remove (l : List Nat) (x : Nat) : List Nat :=
  match l with
  | [] => []
  | y :: ys => if y = x then ys else y :: py_remove ys x

/-- Outcome of `_do_submit` (lines 68-91): the returned boolean, the resulting
in-flight list, whether `callback.done()` ran synchronously, and the future a
completion callback was registered on. -/
structure SubmitOutcome where
  returned : Bool
  incomplete : List Nat
  done_invoked : Bool
  registered : Option Nat
deriving DecidableEq

/-- Embedding of `_do_submit`: a pool-shutdown submission failure invokes
`callback.done()` and returns false; a success appends the future to the
in-flight list, registers `_on_done` on it and returns true. -/
def do_submit (shutdown : Bool) (incomplete : List Nat) (fut : Nat) : SubmitOutcome :=
  if shutdown then ⟨false, incomplete, true, none⟩
  else ⟨true, incomplete ++ [fut], false, some fut⟩

/-- Outcome of the `_on_done` completion callback. -/
structure OnDoneOutcome where
  incomplete : List Nat
  done_invoked : Bool
deriving DecidableEq

/-- Embedding of `_on_done` (lines 69-75): remove the future from the in-flight
list, treating an already absent future as a no-op, then invoke `callback.done()`. -/
def on_done (incomplete : List Nat) (fut : Nat) : OnDoneOutcome :=
  ⟨py_remove incomplete fut, true⟩

/-- External observations resolved during one `wait()` call: whether a poller
thread exists, whether the tombstone was observed set in time, whether the
poller was still alive after the join, and which futures the waiter reports
complete. -/
structure WaitEnv where
  poller_present : Bool
  tombstone_set : Bool
  poller_alive : Bool
  completed : List Nat
deriving DecidableEq

/-- Result of one `wait()` call: the returned boolean, whether the executor
reference is still held, and the resulting in-flight list. -/
structure WaitResult where
  returned : Bool
  executor_present : Bool
  incomplete : List Nat
deriving DecidableEq

/-- Embedding of `wait` (lines 126-154): wait for the tombstone, join the
poller, snapshot the in-flight list, wait for the snapshot, remove the
completed futures (absent ones being a no-op) and fail if any remain; on full
success drop the executor reference and return true. -/
def wait (env : WaitEnv) (executor_present : Bool) (incomplete : List Nat) : WaitResult :=
  if env.poller_present && !env.tombstone_set then ⟨false, executor_present, incomplete⟩
  else if env.poller_present && env.poller_alive then ⟨false, executor_present, incomplete⟩
  else if executor_present then
    let incomplete_fs := incomplete
    if !incomplete_fs.isEmpty then
      let done := incomplete_fs.filter (fun f => env.completed.contains f)
      let not_done := incomplete_fs.filter (fun f => !env.completed.contains f)
      let incomplete2 := done.foldl py_remove incomplete
      if !not_done.isEmpty then ⟨false, executor_present, incomplete2⟩
      else ⟨true, false, incomplete2⟩
    else ⟨true, false, incomplete⟩
  else ⟨true, executor_present, incomplete⟩

/-- Bookkeeping state of the pooled executor: whether an executor pool is held
and the deque of in-flight futures. -/
structure ExecState where
  executor_present : Bool
  incomplete : List Nat
deriving DecidableEq

/-- The operations that touch the bookkeeping state: `start`, a `_do_submit`
attempt (submissions only happen from the runner, which exists only while an
executor does), an `_on_done` completion callback, and a `wait` call. -/
inductive ExecOp where
  | start
  | submit (shutdown : Bool) (fut : Nat)
  | complete (fut : Nat)
  | waitOp (env : WaitEnv)
deriving DecidableEq

/-- The fresh executor state: no pool, no in-flight futures. -/
def initState : ExecState := ⟨false, []⟩

/-- Effect of one operation on the bookkeeping state. -/
def stepOp (s : ExecState) (op : ExecOp) : ExecState :=
  match op with
  | ExecOp.start => ⟨true, s.incomplete⟩
  | ExecOp.submit shutdown fut =>
    if s.executor_present then ⟨s.executor_present, (do_submit shutdown s.incomplete fut).incomplete⟩
    else s
  | ExecOp.complete fut => ⟨s.executor_present, (on_done s.incomplete fut).incomplete⟩
  | ExecOp.waitOp env =>
    let r := wait env s.executor_present s.incomplete
    ⟨r.executor_present, r.incomplete⟩

/-- State reached from a fresh executor by a sequence of operations. -/
def runOps (ops : List ExecOp) : ExecState := ops.foldl stepOp initState

/-! Concrete fixtures used by witnesses and counterexamples. -/

/-- An incoming message with a given identity and priority string. -/
def exMsg (n : Nat) (prio : String) : IncomingMessage :=
  ⟨n, "", { priority := some prio }⟩

/-- A decoded record fixture. -/
def exUser : UserMessage := ⟨"", none, none, none, ⟨none, none⟩⟩

/-- A handler returning Python `None`, coerced to the HANDLED verdict. -/
def handlerHandled : Handler := ⟨"h_handled", fun _ => Except.ok none⟩

/-- A handler returning the REQUEUE verdict. -/
def handlerRequeue : Handler := ⟨"h_requeue", fun _ => Except.ok (some NotificationResult.REQUEUE)⟩

/-- A handler that raises. -/
def handlerBoom : Handler := ⟨"h_boom", fun _ => Except.error ("boom")⟩

/-- An endpoint exposing only a raising `info` handler. -/
def epInfoBoom : Endpoint := ⟨fun p => if p = "info" then some handlerBoom else none, none⟩

/-- An endpoint exposing only a requeueing `info` handler. -/
def epInfoRequeue : Endpoint := ⟨fun p => if p = "info" then some handlerRequeue else none, none⟩

/-- A dispatcher whose only handler raises. -/
def dBoom : Dispatcher := ⟨["t"], [epInfoBoom], NoOpSerializer, false⟩

/-- A dispatcher constructed with `allow_requeue = false` and a handler that
answers REQUEUE anyway. -/
def dRequeueDenied : Dispatcher := ⟨["t"], [epInfoRequeue], NoOpSerializer, false⟩

/-- A dispatcher with no endpoints, used for grouping observations. -/
def dGroup : Dispatcher := ⟨[], [], NoOpSerializer, false⟩

theorem truthyMem_some_iff (reqs : List IncomingMessage) (m : IncomingMessage) :
    truthyMem (some reqs) m = true ↔ reqs ≠ [] ∧ m ∈ reqs := by
  simp [truthyMem, List.isEmpty_iff, List.elem_iff]

theorem post_dispatch_count (msgs : List IncomingMessage)
    (reqs : Option (List IncomingMessage)) (m : IncomingMessage) :
    (post_dispatch msgs reqs).count (AckEvent.acked m)
      + (post_dispatch msgs reqs).count (AckEvent.requeued m) = msgs.count m := by
  induction msgs with
  | nil => simp [post_dispatch]
  | cons x xs ih =>
    simp only [post_dispatch, List.map_cons] at *
    by_cases ht : truthyMem reqs x = true
    · rw [if_pos ht]
      by_cases hx : x = m
      · subst hx
        simp [List.count_cons, ih]
        omega
      · simp [List.count_cons, ih, hx, Ne.symm hx]
    · rw [if_neg ht]
      by_cases hx : x = m
      · subst hx
        simp [List.count_cons, ih]
        omega
      · simp [List.count_cons, ih, hx, Ne.symm hx]

theorem requeued_mem_post_dispatch (msgs : List IncomingMessage)
    (reqs : Option (List IncomingMessage)) (m : IncomingMessage) (h : m ∈ msgs) :
    AckEvent.requeued m ∈ post_dispatch msgs reqs ↔ truthyMem reqs m = true := by
  unfold post_dispatch
  rw [List.mem_map]
  constructor
  · rintro ⟨x, _, heq⟩
    by_cases ht : truthyMem reqs x = true
    · rw [if_pos ht] at heq
      cases heq
      exact ht
    · rw [if_neg ht] at heq
      exact absurd heq (by simp)
  · intro ht
    exact ⟨m, h, by rw [if_pos ht]⟩

theorem acked_mem_post_dispatch (msgs : List IncomingMessage)
    (reqs : Option (List IncomingMessage)) (m : IncomingMessage) (h : m ∈ msgs) :
    AckEvent.acked m ∈ post_dispatch msgs reqs ↔ ¬ truthyMem reqs m = true := by
  unfold post_dispatch
  rw [List.mem_map]
  constructor
  · rintro ⟨x, _, heq⟩
    by_cases ht : truthyMem reqs x = true
    · rw [if_pos ht] at heq
      exact absurd heq (by simp)
    · rw [if_neg ht] at heq
      cases heq
      exact ht
  · intro ht
    exact ⟨m, h, by rw [if_neg ht]⟩

theorem post_dispatch_falsy (msgs : List IncomingMessage)
    (reqs : Option (List IncomingMessage)) (h : ∀ m, truthyMem reqs m = false) :
    post_dispatch msgs reqs = msgs.map AckEvent.acked := by
  unfold post_dispatch
  refine List.map_congr_left (fun m _ => ?_)
  rw [if_neg (by rw [h m]; exact Bool.false_ne_true)]

/-- C1: for every raw message of a dispatch cycle, post-dispatch issues exactly
one acknowledge or requeue call for each of its occurrences; the call is a
requeue exactly when the requeue set is non-empty and contains the message,
and an acknowledge otherwise. -/
theorem post_dispatch_ack_xor_requeue (msgs reqs : List IncomingMessage)
    (m : IncomingMessage) (h : m ∈ msgs) :
    ((post_dispatch msgs (some reqs)).count (AckEvent.acked m)
        + (post_dispatch msgs (some reqs)).count (AckEvent.requeued m) = msgs.count m)
    ∧ (AckEvent.requeued m ∈ post_dispatch msgs (some reqs) ↔ reqs ≠ [] ∧ m ∈ reqs)
    ∧ (AckEvent.acked m ∈ post_dispatch msgs (some reqs) ↔ ¬(reqs ≠ [] ∧ m ∈ reqs)) := by
  refine ⟨post_dispatch_count msgs (some reqs) m, ?_, ?_⟩
  · rw [requeued_mem_post_dispatch msgs (some reqs) m h, truthyMem_some_iff]
  · rw [acked_mem_post_dispatch msgs (some reqs) m h, truthyMem_some_iff]

/-- Closed instance of C1 at a concrete cycle of two messages, the first of
which is in the requeue set. -/
theorem post_dispatch_ack_xor_requeue_witness :
    (exMsg 1 "info") ∈ [exMsg 1 "info", exMsg 2 "warn"]
    ∧ (AckEvent.requeued (exMsg 1 "info")
          ∈ post_dispatch [exMsg 1 "info", exMsg 2 "warn"] (some [exMsg 1 "info"])
        ↔ [exMsg 1 "info"] ≠ [] ∧ (exMsg 1 "info") ∈ [exMsg 1 "info"]) :=
  ⟨by decide,
   (post_dispatch_ack_xor_requeue [exMsg 1 "info", exMsg 2 "warn"] [exMsg 1 "info"]
      (exMsg 1 "info") (by decide)).2.1⟩

theorem processHandlers_false_ok (raws : List IncomingMessage) (msgs : List UserMessage)
    (req : List IncomingMessage) (cbs : List (Option FilterRule × Handler))
    (r : List IncomingMessage)
    (h : (processHandlers false raws msgs req cbs).2 = Except.ok r) : r = req := by
  induction cbs with
  | nil =>
    simp only [processHandlers] at h
    exact (Except.ok.injEq _ _ ▸ h.symm)
  | cons sc rest ih =>
    rcases sc with ⟨screen, callback⟩
    simp only [processHandlers] at h
    by_cases he : (applyScreen screen msgs).isEmpty = true
    · rw [if_pos he] at h
      exact ih h
    · rw [if_neg he] at h
      rcases hx : exec_callback callback (applyScreen screen msgs) with e | ret
      · rw [hx] at h
        exact absurd h (by simp)
      · rw [hx] at h
        simp only [Bool.false_eq_true, false_and, if_false] at h
        exact ih h

theorem processGroups_false_ok
    (cbd : List (String × List (Option FilterRule × Handler)))
    (req : List IncomingMessage)
    (gs : List (String × List IncomingMessage × List UserMessage))
    (r : List IncomingMessage)
    (h : (processGroups false cbd req gs).2 = Except.ok r) : r = req := by
  induction gs generalizing req with
  | nil =>
    simp only [processGroups] at h
    exact (Except.ok.injEq _ _ ▸ h.symm)
  | cons g gs ih =>
    rcases g with ⟨priority, raws, msgs⟩
    simp only [processGroups] at h
    by_cases hp : priority ∉ PRIORITIES
    · rw [if_pos hp] at h
      exact ih req h
    · rw [if_neg hp] at h
      rcases hx : processHandlers false raws msgs req (lookupD cbd priority []) with ⟨evs, res⟩
      rcases res with e | req2
      · rw [hx] at h
        exact absurd h (by simp)
      · rw [hx] at h
        have h2 := ih req2 h
        have h3 : req2 = req :=
          processHandlers_false_ok raws msgs req (lookupD cbd priority []) req2
            (by rw [hx])
        rw [h2, h3]

/-- C2: with `allow_requeue = false` the requeue set produced by a dispatch is
always empty and the cycle never issues a requeue call. -/
theorem no_requeue_when_disallowed (d : Dispatcher) (hd : d.allow_requeue = false)
    (incoming : List IncomingMessage) :
    (∀ r, (dispatch d incoming).2 = Except.ok r → r = [])
    ∧ (∀ m, AckEvent.requeued m ∉ (runCycle d incoming).2) := by
  constructor
  · intro r h
    rw [dispatch, hd] at h
    exact processGroups_false_ok _ _ _ _ h
  · intro m hmem
    have hcycle : (runCycle d incoming).2 = post_dispatch incoming (dispatch_and_handle_error d incoming).2 := rfl
    rw [hcycle] at hmem
    rcases hres : (dispatch_and_handle_error d incoming).2 with _ | r
    · rw [hres] at hmem
      rw [post_dispatch_falsy incoming none (fun _ => rfl)] at hmem
      rcases List.mem_map.mp hmem with ⟨x, _, hx⟩
      exact absurd hx (by simp)
    · have hr : (dispatch d incoming).2 = Except.ok r := by
        unfold dispatch_and_handle_error at hres
        rcases hdisp : dispatch d incoming with ⟨evs, res⟩
        rw [hdisp] at hres
        rcases res with e | r'
        · simp at hres
        · simp at hres
          rw [hres]
      have hr0 : r = [] := by
        rw [dispatch, hd] at hr
        exact processGroups_false_ok _ _ _ _ hr
      rw [hres, hr0] at hmem
      rw [post_dispatch_falsy incoming (some []) (fun _ => rfl)] at hmem
      rcases List.mem_map.mp hmem with ⟨x, _, hx⟩
      exact absurd hx (by simp)

/-- Closed instance of C2: a dispatcher built with `allow_requeue = false`
whose handler answers REQUEUE still never requeues. -/
theorem no_requeue_when_disallowed_witness :
    dRequeueDenied.allow_requeue = false
    ∧ AckEvent.requeued (exMsg 1 "info") ∉ (runCycle dRequeueDenied [exMsg 1 "info"]).2 :=
  ⟨rfl, (no_requeue_when_disallowed dRequeueDenied rfl [exMsg 1 "info"]).2 (exMsg 1 "info")⟩

/-- C3: when the dispatch raises, the `_dispatch_and_handle_error` boundary
swallows the exception, the cycle behaves as if the requeue set were empty,
and post-dispatch still runs and acknowledges every message of the cycle. -/
theorem dispatch_error_acks_all (d : Dispatcher) (incoming : List IncomingMessage)
    (e : String) (h : (dispatch d incoming).2 = Except.error e) :
    (dispatch_and_handle_error d incoming).2 = none
    ∧ (runCycle d incoming).2 = incoming.map AckEvent.acked := by
  have h1 : (dispatch_and_handle_error d incoming).2 = none := by
    unfold dispatch_and_handle_error
    rcases hdisp : dispatch d incoming with ⟨evs, res⟩
    rw [hdisp] at h
    rcases res with e' | r
    · rfl
    · exact absurd h (by simp)
  refine ⟨h1, ?_⟩
  have hcycle : (runCycle d incoming).2 = post_dispatch incoming (dispatch_and_handle_error d incoming).2 := rfl
  rw [hcycle, h1]
  exact post_dispatch_falsy _ _ (fun _ => rfl)

/-- Closed instance of C3: a raising `info` handler leaves the message
acknowledged, not requeued. -/
theorem dispatch_error_acks_all_witness :
    (dispatch dBoom [exMsg 1 "INFO"]).2 = Except.error ("boom")
    ∧ ((dispatch_and_handle_error dBoom [exMsg 1 "INFO"]).2 = none
        ∧ (runCycle dBoom [exMsg 1 "INFO"]).2 = [exMsg 1 "INFO"].map AckEvent.acked) :=
  ⟨rfl, dispatch_error_acks_all dBoom [exMsg 1 "INFO"] "boom" rfl⟩

theorem pygroupby_flatten {α κ : Type} [DecidableEq κ] (key : α → κ) (l : List α) :
    ((pygroupby key l).map (fun g => g.2)).flatten = l := by
  induction l with
  | nil => rfl
  | cons x xs ih =>
    rcases hg : pygroupby key xs with _ | ⟨⟨k, g⟩, rest⟩
    · rw [hg] at ih
      simp at ih
      simp only [pygroupby, hg]
      simp [← ih]
    · rw [hg] at ih
      by_cases hk : key x = k
      · simp only [pygroupby, hg, if_pos hk]
        simp only [List.map_cons, List.flatten_cons] at ih ⊢
        rw [← ih]
        rfl
      · simp only [pygroupby, hg, if_neg hk]
        simp only [List.map_cons, List.flatten_cons] at ih ⊢
        rw [← ih]
        rfl

theorem pygroupby_groups_key {α κ : Type} [DecidableEq κ] (key : α → κ) (l : List α) :
    ∀ g ∈ pygroupby key l, g.2 ≠ [] ∧ ∀ x ∈ g.2, key x = g.1 := by
  induction l with
  | nil => intro g hg; cases hg
  | cons x xs ih =>
    intro g hg
    rcases hgx : pygroupby key xs with _ | ⟨⟨k, gr⟩, rest⟩
    · simp only [pygroupby, hgx] at hg
      rcases List.mem_singleton.mp hg with rfl
      exact ⟨by simp, by intro y hy; rcases List.mem_singleton.mp hy with rfl; rfl⟩
    · by_cases hk : key x = k
      · simp only [pygroupby, hgx, if_pos hk] at hg
        rcases List.mem_cons.mp hg with rfl | hmem
        · have hold := ih (k, gr) (by rw [hgx]; exact List.mem_cons_self _ _)
          refine ⟨by simp, ?_⟩
          intro y hy
          rcases List.mem_cons.mp hy with rfl | hy2
          · exact hk
          · exact hold.2 y hy2
        · exact ih g (by rw [hgx]; exact List.mem_cons_of_mem _ hmem)
      · simp only [pygroupby, hgx, if_neg hk] at hg
        rcases List.mem_cons.mp hg with rfl | hmem
        · exact ⟨by simp, by intro y hy; rcases List.mem_singleton.mp hy with rfl; rfl⟩
        · exact ih g (by rw [hgx]; exact hmem)

theorem pygroupby_keys_chain {α κ : Type} [DecidableEq κ] (key : α → κ) (l : List α) :
    List.Chain' (fun a b => a ≠ b) ((pygroupby key l).map (fun g => g.1)) := by
  induction l with
  | nil => exact List.chain'_nil
  | cons x xs ih =>
    rcases hg : pygroupby key xs with _ | ⟨⟨k, gr⟩, rest⟩
    · simp [pygroupby, hg]
    · rw [hg] at ih
      by_cases hk : key x = k
      · simp only [pygroupby, hg, if_pos hk]
        simpa using ih
      · simp only [pygroupby, hg, if_neg hk]
        simp only [List.map_cons] at ih ⊢
        exact List.Chain'.cons hk ih

/-- C4 counterexample: with extracted priorities `info, error, info` the cycle
produces three groups, two of which carry the priority `info`; the distinct
priority `info` does not form exactly one group containing all its records. -/
theorem dispatch_groups_not_one_per_priority :
    ((dispatchGroups dGroup [exMsg 1 "info", exMsg 2 "error", exMsg 3 "info"]).map
        (fun g => g.1)) = ["info", "error", "info"]
    ∧ ((dispatchGroups dGroup [exMsg 1 "info", exMsg 2 "error", exMsg 3 "info"]).map
        (fun g => g.1)).count ("info") = 2 := by
  constructor
  · decide
  · decide

/-- C4 amended: in every dispatch cycle the extracted records are grouped into
maximal runs of consecutive records sharing a priority: the groups concatenate
back to the extracted sequence in order, every group is non-empty and carries
exactly the priority of all its records, and adjacent groups have distinct
priorities. Records of the same priority that are not adjacent form separate
groups, each processed at its position in the sequence. -/
theorem dispatch_groups_consecutive_runs (d : Dispatcher) (incoming : List IncomingMessage) :
    ((dispatchGroups d incoming).map (fun g => g.2)).flatten
        = incoming.map (extract_user_message d.serializer)
    ∧ (∀ g ∈ dispatchGroups d incoming, g.2 ≠ [] ∧ ∀ x ∈ g.2, x.1 = g.1)
    ∧ List.Chain' (fun a b => a ≠ b) ((dispatchGroups d incoming).map (fun g => g.1)) :=
  ⟨pygroupby_flatten _ _,
   fun g hg => pygroupby_groups_key _ _ g hg,
   pygroupby_keys_chain _ _⟩

theorem processGroups_all_unknown (ar : Bool)
    (cbd : List (String × List (Option FilterRule × Handler)))
    (req : List IncomingMessage)
    (gs : List (String × List IncomingMessage × List UserMessage))
    (h : ∀ g ∈ gs, g.1 ∉ PRIORITIES) :
    (processGroups ar cbd req gs).2 = Except.ok req := by
  induction gs with
  | nil => rfl
  | cons g gs ih =>
    rcases g with ⟨priority, raws, msgs⟩
    have hp : priority ∉ PRIORITIES := h (priority, raws, msgs) (List.mem_cons_self _ _)
    simp only [processGroups, if_pos hp]
    exact ih (fun g hg => h g (List.mem_cons_of_mem _ hg))

theorem dispatch_all_unknown_ok (d : Dispatcher) (incoming : List IncomingMessage)
    (h : ∀ m ∈ incoming, (extract_user_message d.serializer m).1 ∉ PRIORITIES) :
    (dispatch d incoming).2 = Except.ok [] := by
  unfold dispatch
  apply processGroups_all_unknown
  intro g hg
  rcases List.mem_map.mp hg with ⟨g0, hg0, rfl⟩
  unfold dispatchGroups at hg0
  have hprops := pygroupby_groups_key (fun x : String × IncomingMessage × UserMessage => x.1)
    (incoming.map (extract_user_message d.serializer)) g0 hg0
  rcases g0 with ⟨k, grp⟩
  rcases grp with _ | ⟨x, grp'⟩
  · exact absurd rfl hprops.1
  · have hx : x ∈ (incoming.map (extract_user_message d.serializer)) := by
      have hflat := pygroupby_flatten (fun x => x.1)
        (incoming.map (extract_user_message d.serializer))
      rw [← hflat]
      rw [List.mem_flatten]
      exact ⟨x :: grp', List.mem_map.mpr ⟨(k, x :: grp'), hg0, rfl⟩, List.mem_cons_self _ _⟩
    rcases List.mem_map.mp hx with ⟨m, hm, hxm⟩
    have hkey : x.1 = k := hprops.2 x (List.mem_cons_self _ _)
    have := h m hm
    rw [hxm] at this
    rw [← hkey]
    exact this

/-- C7: a priority group whose priority is outside the fixed priority set only
logs a warning: no handler runs for it, the requeue set is untouched, and the
rest of the cycle proceeds; consequently a cycle whose extracted priorities
are all unknown acknowledges every one of its messages. -/
theorem unknown_priority_group_skipped
    (allow_requeue : Bool) (cbd : List (String × List (Option FilterRule × Handler)))
    (requeues : List IncomingMessage) (priority : String)
    (raws : List IncomingMessage) (msgs : List UserMessage)
    (gs : List (String × List IncomingMessage × List UserMessage))
    (h : priority ∉ PRIORITIES) :
    processGroups allow_requeue cbd requeues ((priority, raws, msgs) :: gs)
      = (Event.warned priority :: (processGroups allow_requeue cbd requeues gs).1,
         (processGroups allow_requeue cbd requeues gs).2)
    ∧ (∀ (d : Dispatcher) (incoming : List IncomingMessage),
        (∀ m ∈ incoming, (extract_user_message d.serializer m).1 ∉ PRIORITIES) →
        (runCycle d incoming).2 = incoming.map AckEvent.acked) := by
  constructor
  · simp only [processGroups, if_pos h]
  · intro d incoming hall
    have hok : (dispatch d incoming).2 = Except.ok [] := dispatch_all_unknown_ok d incoming hall
    have hnone : (dispatch_and_handle_error d incoming).2 = some [] := by
      unfold dispatch_and_handle_error
      rcases hdisp : dispatch d incoming with ⟨evs, res⟩
      rw [hdisp] at hok
      rcases res with e | r
      · exact absurd hok (by simp)
      · simp at hok
        rw [hok]
    have hcycle : (runCycle d incoming).2
        = post_dispatch incoming (dispatch_and_handle_error d incoming).2 := rfl
    rw [hcycle, hnone]
    exact post_dispatch_falsy incoming (some []) (fun _ => rfl)

/-- Closed instance of C7 at the unknown priority string `verbose`. -/
theorem unknown_priority_group_skipped_witness :
    ("verbose" ∉ PRIORITIES)
    ∧ processGroups false [] [] [("verbose", [exMsg 1 "verbose"], [exUser])]
      = (Event.warned ("verbose") :: (processGroups false ([] : List (String × List (Option FilterRule × Handler))) [] []).1,
         (processGroups false ([] : List (String × List (Option FilterRule × Handler))) [] []).2) :=
  ⟨by decide,
   (unknown_priority_group_skipped false [] [] "verbose" [exMsg 1 "verbose"] [exUser] []
      (by decide)).1⟩

theorem processHandlers_requeue_break
    (raws : List IncomingMessage) (msgs : List UserMessage) (req : List IncomingMessage)
    (cbs1 : List (Option FilterRule × Handler)) (screen : Option FilterRule) (cb : Handler)
    (rest : List (Option FilterRule × Handler))
    (h1 : ∀ sc ∈ cbs1, applyScreen sc.1 msgs = []
          ∨ ∃ v, exec_callback sc.2 (applyScreen sc.1 msgs) = Except.ok v
                 ∧ v ≠ NotificationResult.REQUEUE)
    (h2 : applyScreen screen msgs ≠ [])
    (h3 : exec_callback cb (applyScreen screen msgs) = Except.ok NotificationResult.REQUEUE) :
    processHandlers true raws msgs req (cbs1 ++ (screen, cb) :: rest)
      = ((processHandlers true raws msgs req cbs1).1
          ++ [Event.invoked cb.name (applyScreen screen msgs) NotificationResult.REQUEUE],
         Except.ok (req ++ raws)) := by
  induction cbs1 with
  | nil =>
    have h2' : ¬ (applyScreen screen msgs).isEmpty = true := by
      simpa [List.isEmpty_iff] using h2
    simp only [List.nil_append, processHandlers, if_neg h2']
    rw [h3]
    simp only []
    simp
  | cons sc cbs1' ih =>
    rcases sc with ⟨s, c⟩
    by_cases he : (applyScreen s msgs).isEmpty = true
    · simp only [List.cons_append, processHandlers, if_pos he]
      exact ih (fun sc hsc => h1 sc (List.mem_cons_of_mem _ hsc))
    · rcases h1 (s, c) (List.mem_cons_self _ _) with hempty | ⟨v, hv, hvne⟩
      · exact absurd (by simpa [List.isEmpty_iff] using hempty) he
      · simp only [List.cons_append, processHandlers, if_neg he, hv]
        rw [if_neg (by simp [hvne])]
        rw [if_neg (by simp [hvne])]
        have ihh := ih (fun sc hsc => h1 sc (List.mem_cons_of_mem _ hsc))
        simp only [List.append_eq]
        rw [ihh]
        rfl

/-- C5: with `allow_requeue = true`, a handler of a priority group answering
REQUEUE causes every raw message of that group, screened or not, to be added
to the requeue set, stops the remaining handlers of that group (only the
handlers before it and itself appear in the event trace), and the groups of
the remaining priorities of the cycle are still processed, with the enlarged
requeue set. -/
theorem requeue_verdict_scope
    (raws : List IncomingMessage) (msgs : List UserMessage) (req : List IncomingMessage)
    (cbs1 : List (Option FilterRule × Handler)) (screen : Option FilterRule) (cb : Handler)
    (rest : List (Option FilterRule × Handler))
    (cbd : List (String × List (Option FilterRule × Handler))) (p : String)
    (gs : List (String × List IncomingMessage × List UserMessage))
    (h1 : ∀ sc ∈ cbs1, applyScreen sc.1 msgs = []
          ∨ ∃ v, exec_callback sc.2 (applyScreen sc.1 msgs) = Except.ok v
                 ∧ v ≠ NotificationResult.REQUEUE)
    (h2 : applyScreen screen msgs ≠ [])
    (h3 : exec_callback cb (applyScreen screen msgs) = Except.ok NotificationResult.REQUEUE)
    (hp : p ∈ PRIORITIES)
    (hcb : lookupD cbd p [] = cbs1 ++ (screen, cb) :: rest) :
    processHandlers true raws msgs req (cbs1 ++ (screen, cb) :: rest)
      = ((processHandlers true raws msgs req cbs1).1
          ++ [Event.invoked cb.name (applyScreen screen msgs) NotificationResult.REQUEUE],
         Except.ok (req ++ raws))
    ∧ processGroups true cbd req ((p, raws, msgs) :: gs)
      = (((processHandlers true raws msgs req cbs1).1
            ++ [Event.invoked cb.name (applyScreen screen msgs) NotificationResult.REQUEUE])
          ++ (processGroups true cbd (req ++ raws) gs).1,
         (processGroups true cbd (req ++ raws) gs).2) := by
  have hmain := processHandlers_requeue_break raws msgs req cbs1 screen cb rest h1 h2 h3
  refine ⟨hmain, ?_⟩
  have hnp : ¬ (p ∉ PRIORITIES) := fun hc => hc hp
  simp only [processGroups, if_neg hnp, hcb, hmain]

/-- Closed instance of C5: one HANDLED handler, then a REQUEUE handler, then a
further handler registered for the same priority; the third never runs and
the raw message of the group lands in the requeue set. -/
theorem requeue_verdict_scope_witness :
    applyScreen none [exUser] ≠ []
    ∧ (processHandlers true [exMsg 1 "info"] [exUser] []
        ([(none, handlerHandled)] ++ (none, handlerRequeue) :: [(none, handlerHandled)])).2
      = Except.ok ([] ++ [exMsg 1 "info"]) := by
  refine ⟨by decide, ?_⟩
  have h := (requeue_verdict_scope [exMsg 1 "info"] [exUser] []
      [(none, handlerHandled)] none handlerRequeue [(none, handlerHandled)]
      [("info", [(none, handlerHandled)] ++ (none, handlerRequeue) :: [(none, handlerHandled)])]
      "info" []
      (by
        intro sc hsc
        rcases List.mem_singleton.mp hsc with rfl
        exact Or.inr ⟨NotificationResult.HANDLED, rfl, by decide⟩)
      (by decide) rfl (by decide) rfl).1
  rw [h]

theorem lookupD_setdefaultAppend {α : Type} (d : List (String × List α)) (k p : String)
    (v : α) :
    lookupD (setdefaultAppend d k v) p []
      = if k = p then lookupD d p [] ++ [v] else lookupD d p [] := by
  induction d with
  | nil => by_cases hk : k = p <;> simp [setdefaultAppend, lookupD, hk]
  | cons kv rest ih =>
    rcases kv with ⟨k', vs⟩
    by_cases hk' : k' = k
    · subst hk'
      by_cases hp : k' = p <;> simp [setdefaultAppend, lookupD, hp]
    · by_cases hp : k' = p
      · have hkp : ¬ k = p := fun h => hk' (hp.trans h.symm)
        have hpk : ¬ p = k := fun h => hkp h.symm
        simp [setdefaultAppend, lookupD, hk', hp, hkp, hpk]
      · simp [setdefaultAppend, lookupD, hk', hp, ih]

theorem lookupD_addEndpointPrio (e : Endpoint)
    (d : List (String × List (Option FilterRule × Handler))) (q p : String) :
    lookupD (addEndpointPrio e d q) p []
      = if q = p then lookupD d p [] ++ optEntry e p else lookupD d p [] := by
  unfold addEndpointPrio
  rcases hq : e.handler q with _ | method
  · by_cases hqp : q = p
    · subst hqp
      rw [if_pos rfl]
      unfold optEntry
      rw [hq]
      simp
    · rw [if_neg hqp]
  · rw [lookupD_setdefaultAppend]
    by_cases hqp : q = p
    · subst hqp
      rw [if_pos rfl, if_pos rfl]
      unfold optEntry
      rw [hq]
    · rw [if_neg hqp, if_neg hqp]

theorem lookupD_foldPrios (e : Endpoint) (ps : List String) (hnd : ps.Nodup)
    (d : List (String × List (Option FilterRule × Handler))) (p : String) :
    lookupD (ps.foldl (addEndpointPrio e) d) p []
      = if p ∈ ps then lookupD d p [] ++ optEntry e p else lookupD d p [] := by
  induction ps generalizing d with
  | nil => simp
  | cons q qs ih =>
    simp only [List.foldl_cons]
    rw [ih (List.Nodup.of_cons hnd) (addEndpointPrio e d q)]
    have hq : lookupD (addEndpointPrio e d q) p []
        = if q = p then lookupD d p [] ++ optEntry e p else lookupD d p [] :=
      lookupD_addEndpointPrio e d q p
    by_cases hmem : p ∈ qs
    · have hqp : ¬ q = p := by
        intro hqp
        subst hqp
        exact (List.nodup_cons.mp hnd).1 hmem
      rw [if_pos hmem, hq, if_neg hqp, if_pos (List.mem_cons_of_mem _ hmem)]
    · rw [if_neg hmem, hq]
      by_cases hqp : q = p
      · rw [if_pos hqp, if_pos (by rw [hqp]; exact List.mem_cons_self _ _)]
      · rw [if_neg hqp, if_neg (by
          intro hc
          rcases List.mem_cons.mp hc with hc | hc
          · exact hqp hc.symm
          · exact hmem hc)]

theorem lookupD_buildCallbacks_fold (eps : List Endpoint)
    (d0 : List (String × List (Option FilterRule × Handler))) (p : String) :
    lookupD (eps.foldl (fun d e => PRIORITIES.foldl (addEndpointPrio e) d) d0) p []
      = lookupD d0 p [] ++ (if p ∈ PRIORITIES then cbFor eps p else []) := by
  induction eps generalizing d0 with
  | nil =>
    simp only [List.foldl_nil]
    by_cases hp : p ∈ PRIORITIES
    · simp [cbFor, hp]
    · simp [hp]
  | cons e eps' ih =>
    simp only [List.foldl_cons]
    rw [ih (PRIORITIES.foldl (addEndpointPrio e) d0)]
    rw [lookupD_foldPrios e PRIORITIES (by decide) d0 p]
    by_cases hp : p ∈ PRIORITIES
    · rw [if_pos hp, if_pos hp, if_pos hp, List.append_assoc]
      have : cbFor (e :: eps') p = optEntry e p ++ cbFor eps' p := by
        simp [cbFor]
      rw [this]
    · rw [if_neg hp, if_neg hp, if_neg hp]

theorem lookupD_buildCallbacks (eps : List Endpoint) (p : String) :
    lookupD (buildCallbacks eps) p [] = if p ∈ PRIORITIES then cbFor eps p else [] := by
  unfold buildCallbacks
  rw [lookupD_buildCallbacks_fold eps [] p]
  rfl

theorem processHandlers_order (ar : Bool) (raws : List IncomingMessage)
    (msgs : List UserMessage) (req : List IncomingMessage)
    (cbs : List (Option FilterRule × Handler)) :
    List.Sublist ((processHandlers ar raws msgs req cbs).1.filterMap invokedName)
      (cbs.map (fun sc => sc.2.name)) := by
  induction cbs with
  | nil => simp [processHandlers]
  | cons sc rest ih =>
    rcases sc with ⟨screen, callback⟩
    simp only [processHandlers, List.map_cons]
    by_cases he : (applyScreen screen msgs).isEmpty = true
    · rw [if_pos he]
      exact ih.cons _
    · rw [if_neg he]
      rcases hx : exec_callback callback (applyScreen screen msgs) with e | ret
      · simp
      · simp only []
        by_cases hr : ar = true ∧ ret = NotificationResult.REQUEUE
        · rw [if_pos hr]
          simp only [List.filterMap_cons, invokedName, List.filterMap_nil]
          exact (List.nil_sublist _).cons₂ _
        · rw [if_neg hr]
          simp only [List.filterMap_cons, invokedName]
          exact ih.cons₂ _

/-- C6: the priority index lists, under every known priority, the
(filter, handler) pairs of exactly the endpoints that expose that priority, in
the order the endpoints were supplied, and the handler loop invokes handlers
following that list order (its invocation trace is a subsequence of the
registered order). -/
theorem handler_registration_order (endpoints : List Endpoint) (p : String)
    (ar : Bool) (raws : List IncomingMessage) (msgs : List UserMessage)
    (req : List IncomingMessage) :
    lookupD (buildCallbacks endpoints) p []
      = (if p ∈ PRIORITIES then cbFor endpoints p else [])
    ∧ List.Sublist
        ((processHandlers ar raws msgs req (lookupD (buildCallbacks endpoints) p [])).1.filterMap
          invokedName)
        ((lookupD (buildCallbacks endpoints) p []).map (fun sc => sc.2.name)) :=
  ⟨lookupD_buildCallbacks endpoints p, processHandlers_order ar raws msgs req _⟩

theorem keysOf_setdefaultAppend {α : Type} (d : List (String × List α)) (k p : String)
    (v : α) :
    p ∈ keysOf (setdefaultAppend d k v) ↔ p = k ∨ p ∈ keysOf d := by
  induction d with
  | nil => simp [setdefaultAppend, keysOf]
  | cons kv rest ih =>
    rcases kv with ⟨k', vs⟩
    by_cases hk' : k' = k
    · subst hk'
      simp only [setdefaultAppend, eq_self_iff_true, if_true, keysOf, List.map_cons,
        List.mem_cons]
      tauto
    · simp only [setdefaultAppend, if_neg hk', keysOf, List.map_cons, List.mem_cons]
      rw [show (List.map (fun kv => kv.1) (setdefaultAppend rest k v))
          = keysOf (setdefaultAppend rest k v) from rfl, ih]
      rw [show (List.map (fun kv : String × List α => kv.1) rest) = keysOf rest from rfl]
      tauto

theorem keysOf_addEndpointPrio (e : Endpoint)
    (d : List (String × List (Option FilterRule × Handler))) (q p : String) :
    p ∈ keysOf (addEndpointPrio e d q)
      ↔ (p = q ∧ (e.handler q).isSome = true) ∨ p ∈ keysOf d := by
  unfold addEndpointPrio
  rcases hq : e.handler q with _ | method
  · simp
  · rw [keysOf_setdefaultAppend]
    simp

theorem keysOf_foldPrios (e : Endpoint) (ps : List String)
    (d : List (String × List (Option FilterRule × Handler))) (p : String) :
    p ∈ keysOf (ps.foldl (addEndpointPrio e) d)
      ↔ (p ∈ ps ∧ (e.handler p).isSome = true) ∨ p ∈ keysOf d := by
  induction ps generalizing d with
  | nil => simp
  | cons q qs ih =>
    simp only [List.foldl_cons]
    rw [ih (addEndpointPrio e d q), keysOf_addEndpointPrio]
    constructor
    · rintro (⟨hqs, hsome⟩ | ⟨rfl, hsome⟩ | hmem)
      · exact Or.inl ⟨List.mem_cons_of_mem _ hqs, hsome⟩
      · exact Or.inl ⟨List.mem_cons_self _ _, hsome⟩
      · exact Or.inr hmem
    · rintro (⟨hmem, hsome⟩ | hmem)
      · rcases List.mem_cons.mp hmem with rfl | hqs
        · exact Or.inr (Or.inl ⟨rfl, hsome⟩)
        · exact Or.inl ⟨hqs, hsome⟩
      · exact Or.inr (Or.inr hmem)

theorem keysOf_buildCallbacks_fold (eps : List Endpoint)
    (d0 : List (String × List (Option FilterRule × Handler))) (p : String) :
    p ∈ keysOf (eps.foldl (fun d e => PRIORITIES.foldl (addEndpointPrio e) d) d0)
      ↔ (p ∈ PRIORITIES ∧ ∃ e ∈ eps, (e.handler p).isSome = true) ∨ p ∈ keysOf d0 := by
  induction eps generalizing d0 with
  | nil => simp
  | cons e eps' ih =>
    simp only [List.foldl_cons]
    rw [ih (PRIORITIES.foldl (addEndpointPrio e) d0), keysOf_foldPrios]
    constructor
    · rintro (⟨hp, e', he', hsome⟩ | ⟨hp, hsome⟩ | hmem)
      · exact Or.inl ⟨hp, e', List.mem_cons_of_mem _ he', hsome⟩
      · exact Or.inl ⟨hp, e, List.mem_cons_self _ _, hsome⟩
      · exact Or.inr hmem
    · rintro (⟨hp, e', he', hsome⟩ | hmem)
      · rcases List.mem_cons.mp he' with rfl | he''
        · exact Or.inr (Or.inl ⟨hp, hsome⟩)
        · exact Or.inl ⟨hp, e', he'', hsome⟩
      · exact Or.inr (Or.inr hmem)

theorem keysOf_buildCallbacks (eps : List Endpoint) (p : String) :
    p ∈ keysOf (buildCallbacks eps)
      ↔ p ∈ PRIORITIES ∧ ∃ e ∈ eps, (e.handler p).isSome = true := by
  unfold buildCallbacks
  rw [keysOf_buildCallbacks_fold eps [] p]
  simp [keysOf]

theorem mem_targets_product (targets ks : List String) (t p : String) :
    (t, p) ∈ targets.foldr (fun t acc => ks.map (fun p => (t, p)) ++ acc) []
      ↔ t ∈ targets ∧ p ∈ ks := by
  induction targets with
  | nil => simp
  | cons t' ts ih =>
    simp only [List.foldr_cons, List.mem_append, List.mem_map, List.mem_cons, ih,
      Prod.mk.injEq]
    constructor
    · rintro (⟨p', hp', rfl, rfl⟩ | ⟨ht, hp⟩)
      · exact ⟨Or.inl rfl, hp'⟩
      · exact ⟨Or.inr ht, hp⟩
    · rintro ⟨rfl | ht, hp⟩
      · exact Or.inl ⟨p, hp, rfl, rfl⟩
      · exact Or.inr ⟨ht, hp⟩

/-- C10: the precomputed subscription set contains exactly the pairs of a
registered target and a priority for which at least one registered endpoint
exposes a handler; fixed priorities no endpoint handles are excluded. -/
theorem targets_priorities_spec (d : Dispatcher) (t p : String) :
    (t, p) ∈ d.targets_priorities
      ↔ t ∈ d.targets ∧ p ∈ PRIORITIES ∧ ∃ e ∈ d.endpoints, (e.handler p).isSome = true := by
  unfold Dispatcher.targets_priorities
  rw [mem_targets_product]
  rw [show keysOf d.callbacks_by_priority = keysOf (buildCallbacks d.endpoints) from rfl]
  rw [keysOf_buildCallbacks]

theorem py_remove_of_not_mem (l : List Nat) (x : Nat) (h : x ∉ l) : py_remove l x = l := by
  induction l with
  | nil => rfl
  | cons y ys ih =>
    have hy : ¬ y = x := fun hc => h (hc ▸ List.mem_cons_self _ _)
    simp only [py_remove, if_neg hy]
    rw [ih (fun hc => h (List.mem_cons_of_mem _ hc))]

theorem py_remove_append_left (l1 l2 : List Nat) (x : Nat) (h : x ∉ l1) :
    py_remove (l1 ++ x :: l2) x = l1 ++ l2 := by
  induction l1 with
  | nil => simp [py_remove]
  | cons y ys ih =>
    have hy : ¬ y = x := fun hc => h (hc ▸ List.mem_cons_self _ _)
    simp only [List.cons_append, py_remove, if_neg hy, List.append_eq]
    rw [ih (fun hc => h (List.mem_cons_of_mem _ hc))]

/-- C8: the submission protocol of `_do_submit` and its `_on_done` completion
callback: a shutdown pool means `callback.done()` runs and false is returned
with the in-flight list untouched and nothing registered; a successful
submission appends the future to the in-flight list, registers the completion
callback on it, runs nothing synchronously, and returns true; the completion
callback always invokes `callback.done()` after removing its future, where an
absent future is a no-op and a present one loses its first occurrence. -/
theorem do_submit_protocol (shutdown : Bool) (inc : List Nat) (fut : Nat) :
    ((do_submit shutdown inc fut).returned = !shutdown)
    ∧ ((do_submit shutdown inc fut).done_invoked = shutdown)
    ∧ (shutdown = true →
        (do_submit shutdown inc fut).incomplete = inc
        ∧ (do_submit shutdown inc fut).registered = none)
    ∧ (shutdown = false →
        (do_submit shutdown inc fut).incomplete = inc ++ [fut]
        ∧ (do_submit shutdown inc fut).registered = some fut)
    ∧ ((on_done inc fut).done_invoked = true)
    ∧ (fut ∉ inc → (on_done inc fut).incomplete = inc)
    ∧ (∀ l1 l2, fut ∉ l1 → inc = l1 ++ fut :: l2 → (on_done inc fut).incomplete = l1 ++ l2) := by
  rcases shutdown with _ | _
  · refine ⟨rfl, rfl, ?_, ?_, rfl, ?_, ?_⟩
    · intro h
      exact absurd h (by simp)
    · intro _
      exact ⟨rfl, rfl⟩
    · intro h
      exact py_remove_of_not_mem inc fut h
    · intro l1 l2 h1 h2
      rw [show (on_done inc fut).incomplete = py_remove inc fut from rfl, h2]
      exact py_remove_append_left l1 l2 fut h1
  · refine ⟨rfl, rfl, ?_, ?_, rfl, ?_, ?_⟩
    · intro _
      exact ⟨rfl, rfl⟩
    · intro h
      exact absurd h (by simp)
    · intro h
      exact py_remove_of_not_mem inc fut h
    · intro l1 l2 h1 h2
      rw [show (on_done inc fut).incomplete = py_remove inc fut from rfl, h2]
      exact py_remove_append_left l1 l2 fut h1

/-- Closed instance of C8: a successful submission appends, and the completion
callback removes the future again and reports done. -/
theorem do_submit_protocol_witness :
    (do_submit false [3] 5).incomplete = [3] ++ [5]
    ∧ (on_done [3, 5] 5).incomplete = [3] ++ [] := by
  constructor
  · exact ((do_submit_protocol false [3] 5).2.2.2.1 rfl).1
  · exact (do_submit_protocol false [3, 5] 5).2.2.2.2.2.2 [3] [] (by decide) rfl

theorem foldl_py_remove_self (l : List Nat) : List.foldl py_remove l l = [] := by
  induction l with
  | nil => rfl
  | cons x xs ih =>
    simp only [List.foldl_cons, py_remove, if_pos rfl]
    exact ih

theorem wait_spec (env : WaitEnv) (ex : Bool) (inc : List Nat)
    (hinv : ex = false → inc = []) :
    ((wait env ex inc).returned = true → (wait env ex inc).incomplete = [])
    ∧ ((wait env ex inc).executor_present = false → (wait env ex inc).incomplete = []) := by
  unfold wait
  by_cases h1 : (env.poller_present && !env.tombstone_set) = true
  · rw [if_pos h1]
    exact ⟨fun h => absurd h (by simp), hinv⟩
  · rw [if_neg h1]
    by_cases h2 : (env.poller_present && env.poller_alive) = true
    · rw [if_pos h2]
      exact ⟨fun h => absurd h (by simp), hinv⟩
    · rw [if_neg h2]
      by_cases hex : ex = true
      · rw [if_pos hex]
        by_cases h3 : (!inc.isEmpty) = true
        · rw [if_pos h3]
          by_cases h4 : (!(inc.filter (fun f => !env.completed.contains f)).isEmpty) = true
          · rw [if_pos h4]
            exact ⟨fun h => absurd h (by simp), fun h => absurd (hex.symm.trans h) (by simp)⟩
          · rw [if_neg h4]
            have hall : ∀ f ∈ inc, env.completed.contains f = true := by
              intro f hf
              have hnil : inc.filter (fun f => !env.completed.contains f) = [] := by
                rcases hf2 : inc.filter (fun f => !env.completed.contains f) with _ | ⟨a, l⟩
                · rfl
                · rw [hf2] at h4
                  simp at h4
              by_contra hc
              have hc' : env.completed.contains f = false := by
                cases hcc : env.completed.contains f
                · rfl
                · exact absurd hcc hc
              have hmem : f ∈ inc.filter (fun f => !env.completed.contains f) :=
                List.mem_filter.mpr ⟨hf, by rw [hc']; rfl⟩
              rw [hnil] at hmem
              cases hmem
            have hdone : inc.filter (fun f => env.completed.contains f) = inc :=
              List.filter_eq_self.mpr hall
            refine ⟨fun _ => ?_, fun _ => ?_⟩
            · show List.foldl py_remove inc (inc.filter (fun f => env.completed.contains f)) = []
              rw [hdone]
              exact foldl_py_remove_self inc
            · show List.foldl py_remove inc (inc.filter (fun f => env.completed.contains f)) = []
              rw [hdone]
              exact foldl_py_remove_self inc
        · rw [if_neg h3]
          have hempty : inc = [] := by
            rcases hinc : inc with _ | ⟨a, l⟩
            · rfl
            · rw [hinc] at h3
              simp at h3
          exact ⟨fun _ => hempty, fun _ => hempty⟩
      · rw [if_neg hex]
        have hexf : ex = false := by
          cases hc : ex
          · rfl
          · exact absurd hc hex
        exact ⟨fun _ => hinv hexf, fun _ => hinv hexf⟩

theorem execInv_step (s : ExecState) (hs : s.executor_present = false → s.incomplete = [])
    (op : ExecOp) :
    (stepOp s op).executor_present = false → (stepOp s op).incomplete = [] := by
  rcases op with _ | ⟨shutdown, fut⟩ | fut | env
  · intro h
    exact absurd h (by simp [stepOp])
  · simp only [stepOp]
    by_cases hex : s.executor_present = true
    · rw [if_pos hex]
      intro h
      rw [show ((⟨s.executor_present, (do_submit shutdown s.incomplete fut).incomplete⟩ :
          ExecState).executor_present) = s.executor_present from rfl, hex] at h
      exact absurd h (by simp)
    · rw [if_neg hex]
      exact hs
  · intro h
    show py_remove s.incomplete fut = []
    rw [hs h]
    rfl
  · exact (wait_spec env s.executor_present s.incomplete hs).2

theorem execInv_foldl (ops : List ExecOp) :
    ∀ (s : ExecState), (s.executor_present = false → s.incomplete = []) →
      ((List.foldl stepOp s ops).executor_present = false
        → (List.foldl stepOp s ops).incomplete = []) := by
  induction ops with
  | nil => intro s hs; exact hs
  | cons op ops ih =>
    intro s hs
    simp only [List.foldl_cons]
    exact ih (stepOp s op) (execInv_step s hs op)

theorem execInv_runOps (ops : List ExecOp) :
    (runOps ops).executor_present = false → (runOps ops).incomplete = [] :=
  execInv_foldl ops initState (fun _ => rfl)

/-- C9: from any reachable bookkeeping state of the executor, whenever a
`wait()` call returns true the in-flight list it leaves behind is empty. -/
theorem wait_true_inflight_empty (ops : List ExecOp) (env : WaitEnv)
    (h : (wait env (runOps ops).executor_present (runOps ops).incomplete).returned = true) :
    (wait env (runOps ops).executor_present (runOps ops).incomplete).incomplete = [] :=
  (wait_spec env (runOps ops).executor_present (runOps ops).incomplete (execInv_runOps ops)).1 h

/-- Closed instance of C9: start, two successful submissions, one completion
callback, then a wait whose waiter reports the remaining future done. -/
theorem wait_true_inflight_empty_witness :
    (wait ⟨false, true, false, [2]⟩
        (runOps [ExecOp.start, ExecOp.submit false 1, ExecOp.submit false 2, ExecOp.complete 1]).executor_present
        (runOps [ExecOp.start, ExecOp.submit false 1, ExecOp.submit false 2, ExecOp.complete 1]).incomplete).returned
      = true
    ∧ (wait ⟨false, true, false, [2]⟩
        (runOps [ExecOp.start, ExecOp.submit false 1, ExecOp.submit false 2, ExecOp.complete 1]).executor_present
        (runOps [ExecOp.start, ExecOp.submit false 1, ExecOp.submit false 2, ExecOp.complete 1]).incomplete).incomplete
      = [] :=
  ⟨by decide,
   wait_true_inflight_empty [ExecOp.start, ExecOp.submit false 1, ExecOp.submit false 2,
     ExecOp.complete 1] ⟨false, true, false, [2]⟩ (by decide)⟩

/-- Closed instance of the amended C4 at the three-message cycle of the
counterexample. -/
theorem dispatch_groups_consecutive_runs_witness :
    ((dispatchGroups dGroup [exMsg 1 "info", exMsg 2 "error", exMsg 3 "info"]).map
        (fun g => g.2)).flatten
      = [exMsg 1 "info", exMsg 2 "error", exMsg 3 "info"].map
          (extract_user_message dGroup.serializer) :=
  (dispatch_groups_consecutive_runs dGroup
    [exMsg 1 "info", exMsg 2 "error", exMsg 3 "info"]).1

/-- Closed instance of C6 for two endpoints both exposing `info`. -/
theorem handler_registration_order_witness :
    lookupD (buildCallbacks [epInfoRequeue, epInfoBoom]) "info" []
      = (if ("info") ∈ PRIORITIES then cbFor [epInfoRequeue, epInfoBoom] ("info") else []) :=
  (handler_registration_order [epInfoRequeue, epInfoBoom] "info" true [] [] []).1

/-- Closed instance of C10 at a concrete dispatcher. -/
theorem targets_priorities_spec_witness :
    (("t", "info") ∈ dBoom.targets_priorities
      ↔ "t" ∈ dBoom.targets ∧ "info" ∈ PRIORITIES
          ∧ ∃ e ∈ dBoom.endpoints, (e.handler ("info")).isSome = true) :=
  targets_priorities_spec dBoom ("t") ("info")

end OsloMessaging
